import Mathlib

set_option maxRecDepth 10000

/-!
Verification development for the kytan VPN core (`src/network.rs`).

The Rust source is shallowly embedded: machine integers become `Nat` with
explicit bounds (`u8` values `< 256`, `u64` values `< 2 ^ 64`), byte buffers
become `List Nat` of bytes, socket addresses become an abstract `Nat`, the
`mio` event loop becomes a step function over an explicit server state, and
side effects (TUN writes, UDP sends, log warnings, panics) become an explicit
list of `Action`s produced by each step.
-/

namespace Kytan

/-- Socket addresses are only ever compared for equality and stored, so they
are embedded as an abstract value. -/
abbrev SocketAddr := Nat

/-- Wire message, from `enum Message` in `network.rs` (`type Id = u8`,
`type Token = u64`). -/
inductive Message where
  | Request : Message
  | Response (id : Nat) (token : Nat) : Message
  | Data (id : Nat) (token : Nat) (data : List Nat) : Message
deriving DecidableEq, Repr

/-- Observable effect of one handler step: a write of raw bytes to the TUN
device, a UDP send to an address, a log warning (log text is external per the
spec), or a process panic (a Rust `unwrap`/`assert`/index failure). -/
inductive Action where
  | TunWrite (bytes : List Nat) : Action
  | UdpSend (bytes : List Nat) (addr : SocketAddr) : Action
  | Warn : Action
  | Panic : Action
deriving DecidableEq, Repr

/-! ### Message codec

Modelled from the spec: `bincode` serialization (an external crate) is
described in §4.1 as "a tag-prefixed representation of the variant followed by
its fields in declared order; `data` is carried as a length-prefixed byte
sequence. Integer endianness and framing details are implementation-free
provided client and server agree."  We fix the bincode 1.x conventions: a
little-endian `u32` variant tag, `u8` as one byte, `u64` little-endian, and
`Vec<u8>` as a little-endian `u64` length followed by the bytes. -/

/-- Little-endian 8-byte encoding of a `u64` value. -/
def u64le (n : Nat) : List Nat :=
  [n % 256, n / 256 % 256, n / 256 ^ 2 % 256, n / 256 ^ 3 % 256,
   n / 256 ^ 4 % 256, n / 256 ^ 5 % 256, n / 256 ^ 6 % 256, n / 256 ^ 7 % 256]

/-- Little-endian value of a byte list. -/
def u64de (l : List Nat) : Nat :=
  l.foldr (fun b acc => acc * 256 + b) 0

/-- Modelled from the spec: `bincode::serialize` of a `Message` (§4.1). -/
def encode : Message → List Nat
  | .Request => [0, 0, 0, 0]
  | .Response id token => [1, 0, 0, 0] ++ [id % 256] ++ u64le token
  | .Data id token data =>
      [2, 0, 0, 0] ++ [id % 256] ++ u64le token ++ u64le data.length ++ data

/-- Modelled from the spec: `bincode::deserialize` of a `Message` (§4.1);
returns `none` on an unrecognized or truncated datagram.  The first four
bytes are the little-endian `u32` variant tag, so the three high tag bytes
must be zero and the low byte selects the variant. -/
def decode (l : List Nat) : Option Message :=
  match l with
  | t0 :: t1 :: t2 :: t3 :: rest =>
      if t1 = 0 ∧ t2 = 0 ∧ t3 = 0 then
        if t0 = 0 then
          if rest = [] then some .Request else none
        else if t0 = 1 then
          if rest.length = 9 then
            some (.Response (rest.headD 0) (u64de (rest.drop 1)))
          else none
        else if t0 = 2 then
          match rest with
          | [] => none
          | id :: rest' =>
              if 16 ≤ rest'.length then
                let token := u64de (rest'.take 8)
                let dlen := u64de ((rest'.drop 8).take 8)
                let data := rest'.drop 16
                if data.length = dlen then some (.Data id token data) else none
              else none
        else none
      else none
  | _ => none

/-! ### Compression

Modelled from the spec: the `snap` crate (external) is described in §4.1 as "a
streaming LZ-family block compressor (Snappy-equivalent) applied to the raw IP
packet. Decompression is the inverse."  We model a valid Snappy block stream
with literal-only emission: a varint preamble carrying the uncompressed
length, followed by literal elements (tag byte with the low two bits `00`).
Copy elements are never emitted by this compressor; the decompressor rejects
them, which only makes `decompress` more partial (failure is a drop per the
spec). -/

/-- Little-endian base-128 varint of a natural number; the first argument is
fuel for structural recursion (`n` itself always suffices, since the value
shrinks by a factor of 128 per emitted byte). -/
def varintGo : Nat → Nat → List Nat
  | 0, n => [n]
  | fuel + 1, n => if n < 128 then [n] else (n % 128 + 128) :: varintGo fuel (n / 128)

/-- Little-endian base-128 varint of a natural number. -/
def varint (n : Nat) : List Nat :=
  varintGo n n

/-- Snappy literal element for a byte run `p` (empty for the empty run): a tag
byte holding `p.length - 1` (inline when below 60, else in one or two
following bytes), then the bytes themselves. -/
def litChunk (p : List Nat) : List Nat :=
  match p with
  | [] => []
  | _ :: _ =>
      let m := p.length - 1
      if m < 60 then (4 * m) :: p
      else if m < 256 then 240 :: m :: p
      else 244 :: (m % 256) :: (m / 256 % 256) :: p

/-- Modelled from the spec: `snap::Encoder::compress_vec` (§4.1), emitting the
uncompressed length as a varint preamble and the input as one literal run. -/
def compress (p : List Nat) : List Nat :=
  varint p.length ++ litChunk p

/-- Parse a little-endian base-128 varint; `none` on truncation. -/
def parseVarint : List Nat → Option (Nat × List Nat)
  | [] => none
  | b :: rest =>
      if b < 128 then some (b, rest)
      else
        match parseVarint rest with
        | none => none
        | some (v, rest') => some (v * 128 + (b - 128), rest')

/-- Decode the sequence of Snappy elements after the preamble.  Literal
elements are decoded; copy elements (never emitted by `compress`) and 4-byte
literal lengths are rejected.  The first argument is fuel, instantiated with
the input length. -/
def decodeChunks : Nat → List Nat → Option (List Nat)
  | _, [] => some []
  | 0, _ :: _ => none
  | fuel + 1, tag :: rest =>
      if tag % 4 = 0 then
        let m := tag / 4
        if m < 60 then
          if m + 1 ≤ rest.length then
            match decodeChunks fuel (rest.drop (m + 1)) with
            | none => none
            | some out => some (rest.take (m + 1) ++ out)
          else none
        else if m = 60 then
          match rest with
          | [] => none
          | len0 :: rest' =>
              if len0 + 1 ≤ rest'.length then
                match decodeChunks fuel (rest'.drop (len0 + 1)) with
                | none => none
                | some out => some (rest'.take (len0 + 1) ++ out)
              else none
        else if m = 61 then
          match rest with
          | len0 :: len1 :: rest' =>
              let len := len0 + 256 * len1
              if len + 1 ≤ rest'.length then
                match decodeChunks fuel (rest'.drop (len + 1)) with
                | none => none
                | some out => some (rest'.take (len + 1) ++ out)
              else none
          | _ => none
        else none
      else none

/-- Modelled from the spec: `snap::Decoder::decompress_vec` (§4.1), the
inverse of `compress`; `none` models the error case. -/
def decompress (l : List Nat) : Option (List Nat) :=
  match parseVarint l with
  | none => none
  | some (n, rest) =>
      match decodeChunks rest.length rest with
      | none => none
      | some out => if out.length = n then some out else none

/-- The standard Ethernet MTU the spec sizes its buffers against (§3). -/
def MTU : Nat := 1500

/-! ### Server state and event loop (`serve` in `network.rs`)

The server's mutable state is `available_ids : Vec<Id>` and
`client_info : TransientHashMap<Id, (Token, SocketAddr)>` with a 60-second
lifetime.  The transient map is embedded as an association list whose values
also carry the insertion time; `prune` removes the entries whose age has
reached the lifetime and returns their keys. -/

/-- One session record value: token, peer address, insertion time. -/
abbrev SessionVal := Nat × SocketAddr × Nat

/-- Mutable server-loop state (`serve`, `network.rs:225-226`). -/
structure ServerState where
  available_ids : List Nat
  client_info : List (Nat × SessionVal)
deriving DecidableEq, Repr

/-- Session-table lifetime in seconds (`TransientHashMap::new(60)`). -/
def TTL : Nat := 60

/-- Initial server state: `available_ids = (2..254).collect()`, empty table. -/
def initialServerState : ServerState :=
  { available_ids := List.range' 2 252, client_info := [] }

/-- Rust `Vec::pop`: removes and returns the last element. -/
def vecPop : List Nat → Option (Nat × List Nat)
  | [] => none
  | x :: xs => some ((x :: xs).getLast (List.cons_ne_nil x xs), (x :: xs).dropLast)

/-- An entry is expired at `now` when its age has reached the lifetime. -/
def expiredAt (now : Nat) (e : Nat × SessionVal) : Bool :=
  e.2.2.2 + TTL ≤ now

/-- The `prune` of `TransientHashMap`: drop the expired entries and return
their keys (`client_info.prune()`, reclaimed at `network.rs:239`). -/
def pruneStep (now : Nat) (s : ServerState) : ServerState :=
  { available_ids := s.available_ids ++ (s.client_info.filter (expiredAt now)).map (·.1),
    client_info := s.client_info.filter (fun e => !expiredAt now e) }

/-- The `get` of the session table: lookup by id. -/
def lookupInfo (id : Nat) (m : List (Nat × SessionVal)) : Option SessionVal :=
  (m.find? (fun e => e.1 == id)).map (·.2)

/-- The `insert` of the session table: replaces any entry with the same key
and records the insertion time. -/
def insertInfo (id : Nat) (v : SessionVal) (m : List (Nat × SessionVal)) :
    List (Nat × SessionVal) :=
  (id, v) :: m.filter (fun e => !(e.1 == id))

/-- Server handling of one ready UDP datagram (`serve`, SOCK arm,
`network.rs:245-301`).  `now` is the current time (used as the insertion
timestamp), `rngToken` the value the thread RNG yields for a fresh token.
The `.unwrap()` on `decode`, on `available_ids.pop()` and on
`decompress_vec` are modelled as `Action.Panic`. -/
def serverHandleSock (now rngToken : Nat) (s : ServerState)
    (bytes : List Nat) (addr : SocketAddr) : ServerState × List Action :=
  match decode bytes with
  | none => (s, [.Panic])
  | some .Request =>
      match vecPop s.available_ids with
      | none => (s, [.Panic])
      | some (client_id, rest) =>
          let reply := Message.Response client_id rngToken
          ({ available_ids := rest,
             client_info := insertInfo client_id (rngToken, addr, now) s.client_info },
           [.UdpSend (encode reply) addr])
  | some (.Response _ _) => (s, [.Warn])
  | some (.Data id token data) =>
      match lookupInfo id s.client_info with
      | none => (s, [.Warn])
      | some (t, _, _) =>
          if t ≠ token then (s, [.Warn])
          else
            match decompress data with
            | none => (s, [.Panic])
            | some p => (s, [.TunWrite p])

/-- Server handling of one ready TUN packet (`serve`, TUN arm,
`network.rs:302-319`).  `data[19]` on a packet shorter than 20 bytes is a
Rust index-out-of-bounds panic, modelled as `Action.Panic`. -/
def serverHandleTun (s : ServerState) (packet : List Nat) :
    ServerState × List Action :=
  if packet.length < 20 then (s, [.Panic])
  else
    let client_id := packet.getD 19 0
    match lookupInfo client_id s.client_info with
    | none => (s, [.Warn])
    | some (token, addr, _) =>
        let msg := Message.Data client_id token (compress packet)
        (s, [.UdpSend (encode msg) addr])

/-- One readiness event: a UDP datagram (with its source address) or a TUN
packet. -/
inductive Event where
  | Sock (bytes : List Nat) (addr : SocketAddr) : Event
  | Tun (packet : List Nat) : Event
deriving DecidableEq, Repr

/-- Dispatch one ready event on the server (`serve` event match). -/
def serverHandleEvent (now rngToken : Nat) (s : ServerState) :
    Event → ServerState × List Action
  | .Sock bytes addr => serverHandleSock now rngToken s bytes addr
  | .Tun packet => serverHandleTun s packet

/-- The states the server loop can reach: the initial state, and every state
produced from a reachable one by the loop-top prune or by handling a ready
event.  A loop-iteration boundary (after the prune step) is the result of a
`prune` constructor, which is itself reachable. -/
inductive Reachable : ServerState → Prop where
  | init : Reachable initialServerState
  | prune (now : Nat) {s : ServerState} :
      Reachable s → Reachable (pruneStep now s)
  | event (now rngToken : Nat) (ev : Event) {s : ServerState} :
      Reachable s → Reachable (serverHandleEvent now rngToken s ev).1

/-! ### Client loop (`connect` in `network.rs`)

The client's steady-state loop has no mutable session state: `id` and `token`
come from the handshake and `remote_addr` is fixed.  Each handler returns
only the list of actions. -/

/-- Client handling of one ready UDP datagram (`connect`, SOCK arm,
`network.rs:148-172`).  `token` is the session token from the handshake;
`addr` is the datagram's source address as returned by `recv_from` (used only
in log text, which is external). -/
def clientHandleSock (token : Nat) (bytes : List Nat) (addr : SocketAddr) :
    List Action :=
  match decode bytes with
  | none => [.Panic]
  | some .Request => [.Warn]
  | some (.Response _ _) => [.Warn]
  | some (.Data _ server_token data) =>
      if token = server_token then
        match decompress data with
        | none => [.Panic]
        | some p => [.TunWrite p]
      else [.Warn]

/-- Client handling of one ready TUN packet (`connect`, TUN arm,
`network.rs:173-189`). -/
def clientHandleTun (id token : Nat) (remote_addr : SocketAddr)
    (packet : List Nat) : List Action :=
  [.UdpSend (encode (Message.Data id token (compress packet))) remote_addr]

/-! ### Handshake receive (`initiate` in `network.rs`)

After sending `Request`, the client blocks on `recv_from`.  The
`assert_eq!(&recv_addr, addr)` panics on an address mismatch; a decode error
or a non-`Response` variant makes `initiate` return `Err`, which `connect`
turns into a panic via `.unwrap()` (`network.rs:102`).  All three are fatal
to the client process, so they collapse to the single outcome `fatal`. -/

/-- Outcome of the client handshake receive: an established session or a
process-fatal error. -/
inductive HandshakeOutcome where
  | ok (id : Nat) (token : Nat) : HandshakeOutcome
  | fatal : HandshakeOutcome
deriving DecidableEq, Repr

/-- The receive half of `initiate` (`network.rs:80-89`) combined with the
`.unwrap()` in `connect`: `serverAddr` is the configured remote address,
`recvAddr` and `bytes` the received datagram. -/
def initiateRecv (serverAddr recvAddr : SocketAddr) (bytes : List Nat) :
    HandshakeOutcome :=
  if recvAddr ≠ serverAddr then .fatal
  else
    match decode bytes with
    | none => .fatal
    | some (.Response id token) => .ok id token
    | some _ => .fatal

/-! ### TUN device creation (`create_tun_attempt` in `network.rs`)

`attempt(id)` panics at `id = 255` and otherwise tries `Tun::create(id)`,
recursing on `id + 1` on failure.  The platform call is abstracted as a
predicate `create : Nat → Bool` saying which interface ids succeed; the
result is the id that succeeded, `none` standing for the panic. -/

/-- The recursion of `attempt` with explicit fuel `255 - id`: fuel 0 is the
`255` match arm that panics (modelled `none`), and each recursive call moves
to `id + 1`.  `id` is a `u8`, so `id ≤ 255` at every call. -/
def attemptGo (create : Nat → Bool) : Nat → Nat → Option Nat
  | 0, _ => none
  | fuel + 1, id => if create id then some id else attemptGo create fuel (id + 1)

/-- The inner `attempt` of `create_tun_attempt` (`network.rs:53-63`). -/
def attempt (create : Nat → Bool) (id : Nat) : Option Nat :=
  attemptGo create (255 - id) id

/-- `create_tun_attempt` starts the search at id 0 (`network.rs:64`). -/
def create_tun_attempt (create : Nat → Bool) : Option Nat :=
  attempt create 0

/-! ### Write drain loops

Each socket or TUN write site is modelled against an acceptance oracle
`f : Nat → Nat` giving the number of bytes the OS accepts at the k-th call
(clamped to the number of bytes offered).  The advancing drain loop used at
`network.rs:160-164` (client TUN write), `183-188` (client data send),
`265-271` (server response send) and `290-295` (server TUN write) offers the
suffix `msg[sent_len..]` each time; the server TUN-ready socket send at
`network.rs:316` is a single `send_to` with no loop. -/

/-- One advancing drain loop over a message of `n` bytes: `sent` is
`sent_len`, `k` counts calls, and fuel bounds the iteration count.  Each call
offers `n - sent` bytes and `min (f k) (n - sent)` are accepted. -/
def drainGo (f : Nat → Nat) (n : Nat) : Nat → Nat → Nat → Nat
  | 0, _, sent => sent
  | fuel + 1, k, sent =>
      if sent < n then drainGo f n fuel (k + 1) (min (sent + f k) n) else sent

/-- Total bytes accepted by the advancing drain loop (fuel `n` suffices when
the oracle accepts at least one byte per call). -/
def drainSend (f : Nat → Nat) (n : Nat) : Nat :=
  drainGo f n n 0 0

/-- The server TUN-ready socket write (`network.rs:316`): one `send_to` of
the whole message, no loop; returns the bytes accepted. -/
def serveTunSockWrite (f : Nat → Nat) (n : Nat) : Nat :=
  min (f 0) n

/-- The handshake request send (`initiate`, `network.rs:72-77`): repeats
while `remaining_len > 0`, but each call offers the whole encoded message
(`&encoded_req_msg`, not a suffix), so up to `n` bytes can be accepted per
call; `remaining` decreases by the accepted count. -/
def initiateSendGo (f : Nat → Nat) (n : Nat) : Nat → Nat → Nat → Nat
  | 0, _, remaining => remaining
  | fuel + 1, k, remaining =>
      if 0 < remaining then
        initiateSendGo f n fuel (k + 1) (remaining - min (f k) n)
      else remaining

/-- Final `remaining_len` of the handshake request send loop. -/
def initiateSend (f : Nat → Nat) (n : Nat) : Nat :=
  initiateSendGo f n n 0 n

/-! ### Small observers used by the claim statements -/

/-- Whether a list of actions contains a write to the TUN device. -/
def hasTunWrite : List Action → Bool
  | [] => false
  | .TunWrite _ :: _ => true
  | _ :: rest => hasTunWrite rest

/-- Whether a message is the `Response` variant. -/
def isResponse : Message → Bool
  | .Response _ _ => true
  | _ => false

/-- Key list of the session table. -/
def keys (m : List (Nat × SessionVal)) : List Nat :=
  m.map (·.1)

/-- Id-conservation invariant of the server loop: the free pool and the
session-table key list have no duplicates, are disjoint, and jointly cover
exactly the id range 2..=253. -/
def Inv (s : ServerState) : Prop :=
  s.available_ids.Nodup ∧ (keys s.client_info).Nodup ∧
  s.available_ids.Disjoint (keys s.client_info) ∧
  ∀ i, (i ∈ s.available_ids ∨ i ∈ keys s.client_info) ↔ (2 ≤ i ∧ i ≤ 253)

/-! ## Theorems -/

/-! ### Codec lemmas -/

theorem length_u64le (n : Nat) : (u64le n).length = 8 :=
  rfl

theorem u64de_u64le (n : Nat) (h : n < 2 ^ 64) : u64de (u64le n) = n := by
  simp only [u64le, u64de, List.foldr_cons, List.foldr_nil]
  omega

theorem decode_encode_data (id token : Nat) (d : List Nat)
    (hid : id < 256) (htok : token < 2 ^ 64) (hd : d.length < 2 ^ 64) :
    decode (encode (.Data id token d)) = some (.Data id token d) := by
  have e1 : encode (.Data id token d) =
      2 :: 0 :: 0 :: 0 :: (id % 256) :: (u64le token ++ (u64le d.length ++ d)) := by
    simp [encode, List.append_assoc]
  rw [e1]
  have hlen : (u64le token ++ (u64le d.length ++ d)).length = 16 + d.length := by
    simp [List.length_append, length_u64le]
    omega
  have l1 : (u64le token ++ (u64le d.length ++ d)).take 8 = u64le token :=
    List.take_left' (length_u64le token)
  have l2 : (u64le token ++ (u64le d.length ++ d)).drop 8 = u64le d.length ++ d :=
    List.drop_left' (length_u64le token)
  have l3 : (u64le d.length ++ d).take 8 = u64le d.length :=
    List.take_left' (length_u64le d.length)
  have l4 : (u64le token ++ (u64le d.length ++ d)).drop 16 = d := by
    rw [← List.append_assoc]
    exact List.drop_left' (by simp [List.length_append, length_u64le])
  simp only [decode, hlen, l1, l2, l3, l4]
  norm_num
  exact ⟨(u64de_u64le d.length hd).symm, hid, u64de_u64le token htok⟩

/-! ### Compression lemmas -/

theorem parseVarint_varintGo (l : List Nat) :
    ∀ fuel n, n ≤ fuel → parseVarint (varintGo fuel n ++ l) = some (n, l) := by
  intro fuel
  induction fuel with
  | zero =>
      intro n hn
      have h0 : n = 0 := Nat.le_zero.mp hn
      subst h0
      simp [varintGo, parseVarint]
  | succ fuel ih =>
      intro n hn
      by_cases h : n < 128
      · simp [varintGo, h, parseVarint]
      · have h1 : ¬ (n % 128 + 128 < 128) := by omega
        have h2 : n / 128 ≤ fuel := by omega
        simp only [varintGo, if_neg h, List.cons_append, parseVarint, if_neg h1,
          ih (n / 128) h2]
        congr 1
        ext
        · omega
        · rfl

theorem parseVarint_varint (n : Nat) (l : List Nat) :
    parseVarint (varint n ++ l) = some (n, l) :=
  parseVarint_varintGo l n n (Nat.le_refl n)

theorem decodeChunks_litChunk (p : List Nat) (hp : p.length ≤ 65536) :
    decodeChunks (litChunk p).length (litChunk p) = some p := by
  match p with
  | [] => simp [litChunk, decodeChunks]
  | x :: xs =>
      have hm : (x :: xs).length - 1 = xs.length := by simp
      by_cases h60 : xs.length < 60
      · have hc : litChunk (x :: xs) = (4 * xs.length) :: x :: xs := by
          simp [litChunk, hm, if_pos h60]
        rw [hc]
        have hmod : 4 * xs.length % 4 = 0 := Nat.mul_mod_right 4 xs.length
        have hdiv : 4 * xs.length / 4 = xs.length := by omega
        have hlen : xs.length + 1 ≤ (x :: xs).length := by simp
        simp only [List.length_cons, decodeChunks, hmod, hdiv, if_pos h60, hlen,
          reduceIte, if_pos trivial]
        rw [List.drop_eq_nil_of_le (by simp)]
        simp only [decodeChunks]
        rw [show (xs.length + 1 : Nat) = (x :: xs).length by simp, List.take_length]
        simp
      · by_cases h256 : xs.length < 256
        · have hc : litChunk (x :: xs) = 240 :: xs.length :: x :: xs := by
            simp [litChunk, hm, if_neg h60, if_pos h256]
          rw [hc]
          have hlen : xs.length + 1 ≤ (x :: xs).length := by simp
          simp only [List.length_cons, decodeChunks, show (240 : Nat) % 4 = 0 from rfl,
            show (240 : Nat) / 4 = 60 from rfl]
          norm_num
          simp only [decodeChunks]
          simp
        · have hc : litChunk (x :: xs) =
              244 :: (xs.length % 256) :: (xs.length / 256 % 256) :: x :: xs := by
            simp [litChunk, hm, if_neg h60, if_neg h256]
          rw [hc]
          have hrec : xs.length % 256 + 256 * (xs.length / 256 % 256) = xs.length := by
            have : xs.length < 65536 := by simp at hp; omega
            omega
          simp only [List.length_cons, decodeChunks, show (244 : Nat) % 4 = 0 from rfl,
            show (244 : Nat) / 4 = 61 from rfl]
          norm_num [hrec]
          simp only [decodeChunks]
          simp

theorem decompress_compress (p : List Nat) (hp : p.length ≤ 65536) :
    decompress (compress p) = some p := by
  unfold decompress compress
  rw [parseVarint_varint]
  simp only [decodeChunks_litChunk p hp]
  simp

theorem varintGo_small (fuel m : Nat) (h : m < 128) : varintGo fuel m = [m] := by
  cases fuel with
  | zero => rfl
  | succ fuel => simp [varintGo, h]

theorem varint_length_le (n : Nat) (h : n < 16384) : (varint n).length ≤ 2 := by
  unfold varint
  cases hn : n with
  | zero => simp [varintGo]
  | succ k =>
      by_cases hsmall : k + 1 < 128
      · rw [varintGo_small _ _ hsmall]
        simp
      · have hq : (k + 1) / 128 < 128 := by omega
        simp only [varintGo, if_neg hsmall, varintGo_small k _ hq]
        simp

theorem litChunk_length_le (p : List Nat) : (litChunk p).length ≤ p.length + 3 := by
  match p with
  | [] => simp [litChunk]
  | x :: xs =>
      simp only [litChunk]
      split
      · simp
      · split
        · simp
        · simp

theorem compress_length_lt (p : List Nat) (hp : p.length ≤ MTU) :
    (compress p).length < 2 ^ 64 := by
  have h1 : (varint p.length).length ≤ 2 :=
    varint_length_le p.length (by unfold MTU at hp; omega)
  have h2 : (litChunk p).length ≤ p.length + 3 := litChunk_length_le p
  have h3 : (compress p).length = (varint p.length).length + (litChunk p).length := by
    simp [compress]
  unfold MTU at hp
  have : (2 : Nat) ^ 64 = 18446744073709551616 := by norm_num
  omega

/-! ### Claim theorems -/

theorem serverHandleSock_data (now tok : Nat) (s : ServerState)
    (bytes : List Nat) (addr : SocketAddr) (i t : Nat) (d : List Nat)
    (hdec : decode bytes = some (.Data i t d)) :
    serverHandleSock now tok s bytes addr =
      match lookupInfo i s.client_info with
      | none => (s, [.Warn])
      | some (tk, _, _) =>
          if tk ≠ t then (s, [.Warn])
          else
            match decompress d with
            | none => (s, [.Panic])
            | some p => (s, [.TunWrite p]) := by
  unfold serverHandleSock
  rw [hdec]

/-- C1: for every reachable server state, an incoming `Data` message whose
token differs from the token stored for its claimed id (or whose id has no
session entry) produces no TUN write, and a `Data` message arriving at the
client whose token differs from the client session token likewise produces no
TUN write. -/
theorem C1_token_match_gate (s : ServerState) (hs : Reachable s)
    (now rngToken : Nat) (bytes : List Nat) (addr : SocketAddr)
    (id token ctoken : Nat) (data : List Nat)
    (hdec : decode bytes = some (.Data id token data))
    (hmiss : ∀ v, lookupInfo id s.client_info = some v → v.1 ≠ token) :
    hasTunWrite (serverHandleSock now rngToken s bytes addr).2 = false ∧
    (ctoken ≠ token → hasTunWrite (clientHandleSock ctoken bytes addr) = false) := by
  constructor
  · rw [serverHandleSock_data now rngToken s bytes addr id token data hdec]
    cases h : lookupInfo id s.client_info with
    | none => rfl
    | some v =>
        obtain ⟨t, a, ts⟩ := v
        have ht : t ≠ token := hmiss _ h
        simp [ht, hasTunWrite]
  · intro hct
    unfold clientHandleSock
    rw [hdec]
    simp [hct, hasTunWrite]

theorem C1_witness :
    hasTunWrite
      (serverHandleSock 0 0 initialServerState (encode (Message.Data 5 7 [])) 3).2
      = false ∧
    hasTunWrite (clientHandleSock 0 (encode (Message.Data 5 7 [])) 3) = false :=
  ⟨(C1_token_match_gate initialServerState Reachable.init 0 0
      (encode (Message.Data 5 7 [])) 3 5 7 0 [] (by decide)
      (fun v hv => by simp [lookupInfo, initialServerState] at hv)).1,
   (C1_token_match_gate initialServerState Reachable.init 0 0
      (encode (Message.Data 5 7 [])) 3 5 7 0 [] (by decide)
      (fun v hv => by simp [lookupInfo, initialServerState] at hv)).2 (by decide)⟩

/-- C2: for a byte sequence `p` of length at most the MTU, decoding the
encoding of `Data (id, token, compress p)` yields a structurally equal
message, and decompressing its data field yields exactly `p`.  (`bincode` and
`snap` are external crates; `encode`/`decode`/`compress`/`decompress` are
modelled from spec §4.1.) -/
theorem C2_roundtrip (id token : Nat) (p : List Nat)
    (hid : id < 256) (htok : token < 2 ^ 64) (hp : p.length ≤ MTU) :
    decode (encode (Message.Data id token (compress p))) =
      some (Message.Data id token (compress p)) ∧
    decompress (compress p) = some p :=
  ⟨decode_encode_data id token (compress p) hid htok (compress_length_lt p hp),
   decompress_compress p (by unfold MTU at hp; omega)⟩

theorem C2_witness :
    decode (encode (Message.Data 5 7 (compress [1, 2, 3]))) =
      some (Message.Data 5 7 (compress [1, 2, 3])) ∧
    decompress (compress [1, 2, 3]) = some [1, 2, 3] :=
  C2_roundtrip 5 7 [1, 2, 3] (by decide) (by decide) (by decide)

/-- C10: the client steady-state handling of an incoming datagram does not
depend on its source address — identical contents yield identical actions,
and in particular a `Data` message carrying the session token is decompressed
and written to TUN whatever the source address was. -/
theorem C10_source_address_independent (token : Nat) (bytes : List Nat)
    (a1 a2 : SocketAddr) (i t : Nat) (d p : List Nat) :
    clientHandleSock token bytes a1 = clientHandleSock token bytes a2 ∧
    (decode bytes = some (.Data i t d) → t = token → decompress d = some p →
      clientHandleSock token bytes a1 = [.TunWrite p]) := by
  refine ⟨rfl, ?_⟩
  intro hdec ht hdcmp
  unfold clientHandleSock
  rw [hdec]
  subst ht
  simp [hdcmp]

theorem C10_witness :
    clientHandleSock 7 (encode (Message.Data 1 7 (compress [1, 2]))) 0 =
      clientHandleSock 7 (encode (Message.Data 1 7 (compress [1, 2]))) 1 ∧
    clientHandleSock 7 (encode (Message.Data 1 7 (compress [1, 2]))) 0 =
      [Action.TunWrite [1, 2]] :=
  ⟨(C10_source_address_independent 7 (encode (Message.Data 1 7 (compress [1, 2])))
      0 1 1 7 (compress [1, 2]) [1, 2]).1,
   (C10_source_address_independent 7 (encode (Message.Data 1 7 (compress [1, 2])))
      0 1 1 7 (compress [1, 2]) [1, 2]).2 (by decide) rfl (by decide)⟩

/-- C4 counterexample: with an empty free pool, an incoming `Request` does
not make the server silently drop it and continue — `available_ids.pop()
.unwrap()` (network.rs:250) panics, modelled by the `Panic` action. -/
theorem C4_counterexample :
    Action.Panic ∈
      (serverHandleSock 0 0 ⟨[], []⟩ (encode Message.Request) 3).2 := by
  decide

/-- C4 amended: in every server state whose free pool is empty, a decoded
`Request` makes the server panic (process abort); no reply is sent and the
state is not updated. -/
theorem C4_empty_pool_panics (s : ServerState) (now tok : Nat)
    (bytes : List Nat) (addr : SocketAddr)
    (hpool : s.available_ids = []) (hdec : decode bytes = some .Request) :
    serverHandleSock now tok s bytes addr = (s, [.Panic]) := by
  unfold serverHandleSock
  rw [hdec, hpool]
  rfl

theorem C4_witness :
    serverHandleSock 0 0 ⟨[], []⟩ (encode Message.Request) 3 =
      (⟨[], []⟩, [Action.Panic]) :=
  C4_empty_pool_panics ⟨[], []⟩ 0 0 (encode Message.Request) 3 rfl (by decide)

/-- C5 counterexample: a datagram that fails to decode is not dropped with a
warning — `decode(..).unwrap()` (network.rs:247) panics, modelled by the
`Panic` action. -/
theorem C5_counterexample :
    Action.Panic ∈ (serverHandleSock 0 0 initialServerState [9] 3).2 := by
  decide

/-- C5 amended: in steady state, a datagram that fails to decode, or a `Data`
message that passes the token check but whose payload fails to decompress,
makes the process panic (both roles); the state is not modified before the
panic. -/
theorem C5_decode_failure_panics (s : ServerState) (now tok ctok : Nat)
    (bytes : List Nat) (addr : SocketAddr) (i t : Nat) (d : List Nat) :
    (decode bytes = none →
      serverHandleSock now tok s bytes addr = (s, [.Panic]) ∧
      clientHandleSock ctok bytes addr = [.Panic]) ∧
    (decode bytes = some (.Data i t d) → decompress d = none →
      ((∃ a ts, lookupInfo i s.client_info = some (t, a, ts)) →
        serverHandleSock now tok s bytes addr = (s, [.Panic])) ∧
      (ctok = t → clientHandleSock ctok bytes addr = [.Panic])) := by
  constructor
  · intro hdec
    constructor
    · unfold serverHandleSock
      rw [hdec]
    · unfold clientHandleSock
      rw [hdec]
  · intro hdec hdcmp
    constructor
    · rintro ⟨a, ts, hlook⟩
      rw [serverHandleSock_data now tok s bytes addr i t d hdec, hlook]
      simp [hdcmp]
    · intro hct
      subst hct
      unfold clientHandleSock
      rw [hdec]
      simp [hdcmp]

theorem C5_witness :
    (serverHandleSock 0 0 ⟨[], [(5, (7, 9, 0))]⟩ [9] 3 =
      (⟨[], [(5, (7, 9, 0))]⟩, [Action.Panic])) ∧
    (clientHandleSock 7 [9] 3 = [Action.Panic]) ∧
    (serverHandleSock 0 0 ⟨[], [(5, (7, 9, 0))]⟩
        (encode (Message.Data 5 7 [255])) 3 =
      (⟨[], [(5, (7, 9, 0))]⟩, [Action.Panic])) ∧
    (clientHandleSock 7 (encode (Message.Data 5 7 [255])) 3 = [Action.Panic]) :=
  ⟨((C5_decode_failure_panics ⟨[], [(5, (7, 9, 0))]⟩ 0 0 7 [9] 3 5 7 [255]).1
      (by decide)).1,
   ((C5_decode_failure_panics ⟨[], [(5, (7, 9, 0))]⟩ 0 0 7 [9] 3 5 7 [255]).1
      (by decide)).2,
   ((C5_decode_failure_panics ⟨[], [(5, (7, 9, 0))]⟩ 0 0 7
        (encode (Message.Data 5 7 [255])) 3 5 7 [255]).2 (by decide)
      (by decide)).1 ⟨9, 0, by decide⟩,
   ((C5_decode_failure_panics ⟨[], [(5, (7, 9, 0))]⟩ 0 0 7
        (encode (Message.Data 5 7 [255])) 3 5 7 [255]).2 (by decide)
      (by decide)).2 rfl⟩

/-- C6 counterexample: not every write is an advancing loop — the server's
TUN-ready socket send (network.rs:316) is a single `send_to`; with an oracle
accepting one byte per call, only 1 of 2 bytes is accepted and there is no
retry. -/
theorem C6_counterexample : serveTunSockWrite (fun _ => 1) 2 ≠ 2 := by
  decide

theorem drainGo_drains (f : Nat → Nat) (n : Nat) (hf : ∀ k, 1 ≤ f k) :
    ∀ fuel k sent, sent ≤ n → n - sent ≤ fuel → drainGo f n fuel k sent = n := by
  intro fuel
  induction fuel with
  | zero =>
      intro k sent h1 h2
      simp only [drainGo]
      omega
  | succ fuel ih =>
      intro k sent h1 h2
      simp only [drainGo]
      by_cases hlt : sent < n
      · rw [if_pos hlt]
        have := hf k
        exact ih (k + 1) (min (sent + f k) n) (by omega) (by omega)
      · rw [if_neg hlt]
        omega

theorem initiateSendGo_drains (f : Nat → Nat) (n : Nat) (hf : ∀ k, 1 ≤ f k) :
    ∀ fuel k remaining, remaining ≤ fuel → remaining ≤ n →
      initiateSendGo f n fuel k remaining = 0 := by
  intro fuel
  induction fuel with
  | zero =>
      intro k remaining h1 h2
      simp only [initiateSendGo]
      omega
  | succ fuel ih =>
      intro k remaining h1 h2
      simp only [initiateSendGo]
      by_cases hpos : 0 < remaining
      · rw [if_pos hpos]
        have := hf k
        exact ih (k + 1) (remaining - min (f k) n) (by omega) (by omega)
      · rw [if_neg hpos]
        omega

/-- C6 amended: the TUN writes, the client data send and the server
handshake-response send use an advancing loop that repeats until all bytes
are accepted (modelled by `drainSend`); the handshake request send repeats
until its remaining counter is exhausted but re-offers the whole message each
call (`initiateSend`); the server TUN-ready socket send is a single `send_to`
that accepts whatever the first call accepts (`serveTunSockWrite`). -/
theorem C6_write_loops (n : Nat) (f : Nat → Nat) (hf : ∀ k, 1 ≤ f k) :
    drainSend f n = n ∧ initiateSend f n = 0 ∧
    serveTunSockWrite f n = min (f 0) n :=
  ⟨drainGo_drains f n hf n 0 0 (Nat.zero_le n) (by omega),
   initiateSendGo_drains f n hf n 0 n (Nat.le_refl n) (Nat.le_refl n),
   rfl⟩

theorem C6_witness :
    drainSend (fun _ => 2) 3 = 3 ∧ initiateSend (fun _ => 2) 3 = 0 ∧
    serveTunSockWrite (fun _ => 2) 3 = min 2 3 :=
  C6_write_loops 3 (fun _ => 2) (fun _ => Nat.le_succ 1)

/-- C7 counterexample: a TUN packet shorter than 20 bytes is not rejected
cleanly — `data[19]` (network.rs:305) is an index-out-of-bounds panic,
modelled by the `Panic` action. -/
theorem C7_counterexample :
    Action.Panic ∈ (serverHandleTun initialServerState [0]).2 := by
  decide

/-- C7 amended: on the server TUN-ready path the destination client id is
byte offset 19 of the packet; a packet shorter than 20 bytes makes the
process panic (index out of bounds — defined behavior in Rust, but a crash,
not a clean rejection), while a packet of length at least 20 is forwarded or
warn-dropped according to the session lookup of byte 19. -/
theorem C7_offset19 (s : ServerState) (packet : List Nat)
    (token : Nat) (a : SocketAddr) (ts : Nat) :
    (packet.length < 20 → serverHandleTun s packet = (s, [.Panic])) ∧
    (20 ≤ packet.length →
      (lookupInfo (packet.getD 19 0) s.client_info = none →
        serverHandleTun s packet = (s, [.Warn])) ∧
      (lookupInfo (packet.getD 19 0) s.client_info = some (token, a, ts) →
        serverHandleTun s packet =
          (s, [.UdpSend
                (encode (Message.Data (packet.getD 19 0) token (compress packet)))
                a]))) := by
  constructor
  · intro h
    unfold serverHandleTun
    rw [if_pos h]
  · intro h
    constructor
    · intro hlook
      unfold serverHandleTun
      rw [if_neg (by omega)]
      simp only [hlook]
    · intro hlook
      unfold serverHandleTun
      rw [if_neg (by omega)]
      simp only [hlook]

theorem C7_witness :
    (serverHandleTun ⟨[], [(0, (7, 9, 4))]⟩ [0] =
      (⟨[], [(0, (7, 9, 4))]⟩, [Action.Panic])) ∧
    (serverHandleTun ⟨[], [(0, (7, 9, 4))]⟩ (List.replicate 20 0) =
      (⟨[], [(0, (7, 9, 4))]⟩,
       [Action.UdpSend
          (encode (Message.Data 0 7 (compress (List.replicate 20 0)))) 9])) :=
  ⟨(C7_offset19 ⟨[], [(0, (7, 9, 4))]⟩ [0] 7 9 4).1 (by decide),
   by
     have h := ((C7_offset19 ⟨[], [(0, (7, 9, 4))]⟩ (List.replicate 20 0) 7 9 4).2
        (by decide)).2 (by decide)
     simpa using h⟩

theorem attemptGo_eq_some (create : Nat → Bool) :
    ∀ fuel start i,
      (attemptGo create fuel start = some i ↔
        start ≤ i ∧ i < start + fuel ∧ create i = true ∧
        ∀ j, start ≤ j → j < i → create j = false) := by
  intro fuel
  induction fuel with
  | zero =>
      intro start i
      simp only [attemptGo]
      constructor
      · intro h
        exact absurd h (by simp)
      · intro ⟨h1, h2, _⟩
        omega
  | succ fuel ih =>
      intro start i
      simp only [attemptGo]
      by_cases h : create start
      · rw [if_pos h]
        constructor
        · intro hi
          have : start = i := by injection hi
          subst this
          exact ⟨Nat.le_refl _, by omega, h, fun j h1 h2 => by omega⟩
        · intro ⟨h1, _, hc, hall⟩
          have : i = start := by
            by_contra hne
            have : create start = false := hall start (Nat.le_refl _) (by omega)
            rw [h] at this
            exact absurd this (by simp)
          rw [this]
      · rw [if_neg h]
        rw [ih (start + 1) i]
        have hfs : create start = false := by
          cases hcs : create start
          · rfl
          · exact absurd hcs h
        constructor
        · intro ⟨h1, h2, hc, hall⟩
          refine ⟨by omega, by omega, hc, ?_⟩
          intro j hj1 hj2
          rcases Nat.eq_or_lt_of_le hj1 with heq | hlt
          · rw [← heq]
            exact hfs
          · exact hall j hlt hj2
        · intro ⟨h1, h2, hc, hall⟩
          have hne : i ≠ start := by
            intro heq
            rw [heq] at hc
            rw [hfs] at hc
            exact absurd hc (by simp)
          exact ⟨by omega, by omega, hc, fun j hj1 hj2 => hall j (by omega) hj2⟩

theorem attemptGo_eq_none (create : Nat → Bool) :
    ∀ fuel start,
      (attemptGo create fuel start = none ↔
        ∀ j, start ≤ j → j < start + fuel → create j = false) := by
  intro fuel
  induction fuel with
  | zero =>
      intro start
      simp only [attemptGo]
      constructor
      · intro _ j h1 h2
        omega
      · intro _
        trivial
  | succ fuel ih =>
      intro start
      simp only [attemptGo]
      by_cases h : create start
      · rw [if_pos h]
        constructor
        · intro hc
          exact absurd hc (by simp)
        · intro hall
          have := hall start (Nat.le_refl _) (by omega)
          rw [h] at this
          exact absurd this (by simp)
      · rw [if_neg h]
        rw [ih (start + 1)]
        have hfs : create start = false := by
          cases hcs : create start
          · rfl
          · exact absurd hcs h
        constructor
        · intro hall j hj1 hj2
          rcases Nat.eq_or_lt_of_le hj1 with heq | hlt
          · rw [← heq]
            exact hfs
          · exact hall j hlt (by omega)
        · intro hall j hj1 hj2
          exact hall j (by omega) (by omega)

/-- C8: TUN creation attempts interface ids monotonically from 0: it returns
`some i` exactly when `i ≤ 254` is the first id the platform accepts, and
returns `none` (the panic at id 255) exactly when every id up to 254 fails.
The attempt function is total (structural recursion on `255 - id`), so it
terminates for every starting id. -/
theorem C8_create_tun_attempt (create : Nat → Bool) (i : Nat) :
    (create_tun_attempt create = some i ↔
      i ≤ 254 ∧ create i = true ∧ ∀ j, j < i → create j = false) ∧
    (create_tun_attempt create = none ↔ ∀ j, j ≤ 254 → create j = false) := by
  unfold create_tun_attempt attempt
  constructor
  · rw [attemptGo_eq_some create (255 - 0) 0 i]
    constructor
    · intro ⟨_, h2, hc, hall⟩
      exact ⟨by omega, hc, fun j hj => hall j (Nat.zero_le j) hj⟩
    · intro ⟨h1, hc, hall⟩
      exact ⟨Nat.zero_le i, by omega, hc, fun j _ hj => hall j hj⟩
  · rw [attemptGo_eq_none create (255 - 0) 0]
    constructor
    · intro hall j hj
      exact hall j (Nat.zero_le j) (by omega)
    · intro hall j _ hj
      exact hall j (by omega)

theorem C8_witness :
    (create_tun_attempt (fun j => j == 3) = some 3) ∧
    (create_tun_attempt (fun _ => false) = none) :=
  ⟨(C8_create_tun_attempt (fun j => j == 3) 3).1.mpr
      ⟨by decide, by decide, by decide⟩,
   (C8_create_tun_attempt (fun _ => false) 0).2.mpr (fun j _ => rfl)⟩

/-- C9: during the handshake the client accepts only a datagram from the
exact configured server address and only a `Response` reply: the outcome is
`ok id token` exactly when the source matches and the bytes decode to
`Response id token`; an address mismatch is fatal, and a reply decoding to
any other variant is fatal. -/
theorem C9_handshake_fatal (serverAddr recvAddr : SocketAddr)
    (bytes : List Nat) (id token : Nat) (m : Message) :
    (initiateRecv serverAddr recvAddr bytes = .ok id token ↔
      recvAddr = serverAddr ∧ decode bytes = some (.Response id token)) ∧
    (recvAddr ≠ serverAddr → initiateRecv serverAddr recvAddr bytes = .fatal) ∧
    (decode bytes = some m → isResponse m = false →
      initiateRecv serverAddr recvAddr bytes = .fatal) := by
  refine ⟨?_, ?_, ?_⟩
  · unfold initiateRecv
    by_cases ha : recvAddr ≠ serverAddr
    · rw [if_pos ha]
      simp [ha]
    · rw [if_neg ha]
      push_neg at ha
      cases hdec : decode bytes with
      | none => simp [ha]
      | some m' =>
          cases m' with
          | Request => simp [ha]
          | Response i t => simp [ha]
          | Data i t d => simp [ha]
  · intro h
    unfold initiateRecv
    rw [if_pos h]
  · intro hdec hm
    unfold initiateRecv
    by_cases ha : recvAddr ≠ serverAddr
    · rw [if_pos ha]
    · rw [if_neg ha, hdec]
      cases m with
      | Request => rfl
      | Response i t => simp [isResponse] at hm
      | Data i t d => rfl

theorem C9_witness :
    (initiateRecv 1 2 (encode (Message.Response 9 5)) = .fatal) ∧
    (initiateRecv 1 1 (encode Message.Request) = .fatal) ∧
    (initiateRecv 1 1 (encode (Message.Response 9 5)) = .ok 9 5) :=
  ⟨(C9_handshake_fatal 1 2 (encode (Message.Response 9 5)) 9 5
      Message.Request).2.1 (by decide),
   (C9_handshake_fatal 1 1 (encode Message.Request) 9 5 Message.Request).2.2
      (by decide) rfl,
   (C9_handshake_fatal 1 1 (encode (Message.Response 9 5)) 9 5
      Message.Request).1.mpr ⟨rfl, by decide⟩⟩

/-! ### Id-conservation invariant (C3) -/

theorem mem_keys_filter_or (M : List (Nat × SessionVal))
    (p : Nat × SessionVal → Bool) (i : Nat) :
    i ∈ keys M ↔
      i ∈ keys (M.filter p) ∨ i ∈ keys (M.filter (fun e => !p e)) := by
  simp only [keys, List.mem_map, List.mem_filter]
  constructor
  · rintro ⟨e, he, rfl⟩
    cases hp : p e
    · right
      exact ⟨e, ⟨he, by simp [hp]⟩, rfl⟩
    · left
      exact ⟨e, ⟨he, hp⟩, rfl⟩
  · rintro (⟨e, ⟨he, _⟩, rfl⟩ | ⟨e, ⟨he, _⟩, rfl⟩) <;> exact ⟨e, he, rfl⟩

theorem disjoint_keys_filter (M : List (Nat × SessionVal))
    (p : Nat × SessionVal → Bool) (h2 : (keys M).Nodup) :
    (keys (M.filter p)).Disjoint (keys (M.filter (fun e => !p e))) := by
  intro i hi1 hi2
  simp only [keys, List.mem_map, List.mem_filter] at hi1 hi2
  obtain ⟨e1, ⟨he1, hp1⟩, hk1⟩ := hi1
  obtain ⟨e2, ⟨he2, hp2⟩, hk2⟩ := hi2
  have he : e1 = e2 :=
    List.inj_on_of_nodup_map h2 he1 he2 (hk1.trans hk2.symm)
  subst he
  rw [hp1] at hp2
  simp at hp2

theorem inv_initial : Inv initialServerState := by
  refine ⟨?_, ?_, ?_, ?_⟩
  · exact List.nodup_range' 2 252
  · simp [keys, initialServerState]
  · intro a ha hb
    simp [keys, initialServerState] at hb
  · intro i
    simp only [initialServerState, keys, List.map_nil, List.not_mem_nil,
      or_false, List.mem_range'_1]
    omega

theorem inv_prune (now : Nat) (s : ServerState) (h : Inv s) :
    Inv (pruneStep now s) := by
  obtain ⟨h1, h2, h3, h4⟩ := h
  have subEx : (keys (s.client_info.filter (expiredAt now))).Sublist
      (keys s.client_info) :=
    List.Sublist.map _ (List.filter_sublist s.client_info)
  have subKp : (keys (s.client_info.filter (fun e => !expiredAt now e))).Sublist
      (keys s.client_info) :=
    List.Sublist.map _ (List.filter_sublist s.client_info)
  refine ⟨?_, ?_, ?_, ?_⟩
  · show (s.available_ids ++ keys (s.client_info.filter (expiredAt now))).Nodup
    rw [List.nodup_append]
    exact ⟨h1, List.Nodup.sublist subEx h2,
      fun a ha hb => h3 ha (subEx.subset hb)⟩
  · exact List.Nodup.sublist subKp h2
  · intro a ha hb
    have hb' : a ∈ keys (s.client_info.filter (fun e => !expiredAt now e)) := hb
    rcases List.mem_append.mp ha with haA | haEx
    · exact h3 haA (subKp.subset hb')
    · exact disjoint_keys_filter s.client_info (expiredAt now) h2 haEx hb'
  · intro i
    have hsplit := mem_keys_filter_or s.client_info (expiredAt now) i
    specialize h4 i
    show (i ∈ s.available_ids ++ keys (s.client_info.filter (expiredAt now)) ∨
        i ∈ keys (s.client_info.filter (fun e => !expiredAt now e))) ↔ _
    constructor
    · rintro (hmem | hmem)
      · rcases List.mem_append.mp hmem with hA | hEx
        · exact h4.mp (Or.inl hA)
        · exact h4.mp (Or.inr (hsplit.mpr (Or.inl hEx)))
      · exact h4.mp (Or.inr (hsplit.mpr (Or.inr hmem)))
    · intro hr
      rcases h4.mpr hr with hA | hK
      · exact Or.inl (List.mem_append.mpr (Or.inl hA))
      · rcases hsplit.mp hK with hEx | hKp
        · exact Or.inl (List.mem_append.mpr (Or.inr hEx))
        · exact Or.inr hKp

theorem inv_insert (s : ServerState) (h : Inv s) (cid : Nat) (rest : List Nat)
    (v : SessionVal) (hpop : vecPop s.available_ids = some (cid, rest)) :
    Inv { available_ids := rest,
          client_info := insertInfo cid v s.client_info } := by
  obtain ⟨h1, h2, h3, h4⟩ := h
  have hsplit : rest ++ [cid] = s.available_ids := by
    cases hA : s.available_ids with
    | nil =>
        rw [hA] at hpop
        exact absurd hpop (by simp [vecPop])
    | cons x xs =>
        rw [hA] at hpop
        unfold vecPop at hpop
        injection hpop with hpr
        have hc : (x :: xs).getLast (List.cons_ne_nil x xs) = cid :=
          congrArg Prod.fst hpr
        have hr : (x :: xs).dropLast = rest := congrArg Prod.snd hpr
        rw [← hc, ← hr]
        exact List.dropLast_append_getLast (List.cons_ne_nil x xs)
  have hnodup : (rest ++ [cid]).Nodup := hsplit ▸ h1
  rw [List.nodup_append] at hnodup
  obtain ⟨hr1, _, hdisj⟩ := hnodup
  have hcid_not_rest : cid ∉ rest := fun hmem => hdisj hmem (by simp)
  have hcid_avail : cid ∈ s.available_ids := by
    rw [← hsplit]
    exact List.mem_append.mpr (Or.inr (by simp))
  have hcid_not_keys : cid ∉ keys s.client_info := fun hk => h3 hcid_avail hk
  have hfilter : s.client_info.filter (fun e => !(e.1 == cid)) = s.client_info := by
    rw [List.filter_eq_self]
    intro e he
    rw [Bool.not_eq_eq_eq_not, Bool.not_true, beq_eq_false_iff_ne]
    intro heq
    exact hcid_not_keys (heq ▸ List.mem_map.mpr ⟨e, he, rfl⟩)
  have hkeys : keys (insertInfo cid v s.client_info) = cid :: keys s.client_info := by
    simp only [insertInfo, keys, List.map_cons, hfilter]
  refine ⟨hr1, ?_, ?_, ?_⟩
  · show (keys (insertInfo cid v s.client_info)).Nodup
    rw [hkeys, List.nodup_cons]
    exact ⟨hcid_not_keys, h2⟩
  · intro a ha hb
    have hb' : a ∈ keys (insertInfo cid v s.client_info) := hb
    rw [hkeys] at hb'
    rcases List.mem_cons.mp hb' with heq | hb''
    · exact hcid_not_rest (heq ▸ ha)
    · exact h3 (by rw [← hsplit]; exact List.mem_append.mpr (Or.inl ha)) hb''
  · intro i
    show (i ∈ rest ∨ i ∈ keys (insertInfo cid v s.client_info)) ↔ _
    rw [hkeys]
    specialize h4 i
    rw [← hsplit] at h4
    simp only [List.mem_append, List.mem_singleton, List.mem_cons] at h4 ⊢
    tauto

theorem serverHandleTun_state (s : ServerState) (packet : List Nat) :
    (serverHandleTun s packet).1 = s := by
  unfold serverHandleTun
  split
  · rfl
  · show (match lookupInfo (packet.getD 19 0) s.client_info with
        | none => (s, [Action.Warn])
        | some (token, addr, _) =>
            (s, [Action.UdpSend
                  (encode (Message.Data (packet.getD 19 0) token (compress packet)))
                  addr])).1 = s
    split <;> rfl

theorem inv_sock (now tok : Nat) (s : ServerState) (bytes : List Nat)
    (addr : SocketAddr) (h : Inv s) :
    Inv (serverHandleSock now tok s bytes addr).1 := by
  unfold serverHandleSock
  split
  · exact h
  · split
    · exact h
    · rename_i cid rest heq
      exact inv_insert s h cid rest (tok, addr, now) heq
  · exact h
  · split
    · exact h
    · split
      · exact h
      · split
        · exact h
        · exact h

theorem reachable_inv (s : ServerState) (hs : Reachable s) : Inv s := by
  induction hs with
  | init => exact inv_initial
  | prune now hs ih => exact inv_prune now _ ih
  | event now tok ev hs ih =>
      cases ev with
      | Sock bytes addr => exact inv_sock now tok _ bytes addr ih
      | Tun packet =>
          show Inv (serverHandleTun _ packet).1
          rw [serverHandleTun_state]
          exact ih

/-- C3: in every reachable server-loop state — in particular at every
iteration boundary just after the prune step, which `Reachable.prune` makes
reachable — the free id pool and the key set of the session table are
disjoint and their union is exactly the id range 2..=253. -/
theorem C3_id_conservation (s : ServerState) (hs : Reachable s) :
    s.available_ids.Disjoint (keys s.client_info) ∧
    ∀ i, (i ∈ s.available_ids ∨ i ∈ keys s.client_info) ↔ (2 ≤ i ∧ i ≤ 253) := by
  have h := reachable_inv s hs
  exact ⟨h.2.2.1, h.2.2.2⟩

theorem C3_witness :
    initialServerState.available_ids.Disjoint (keys initialServerState.client_info) ∧
    ((7 ∈ initialServerState.available_ids ∨
        7 ∈ keys initialServerState.client_info) ↔ (2 ≤ 7 ∧ 7 ≤ 253)) :=
  ⟨(C3_id_conservation initialServerState Reachable.init).1,
   (C3_id_conservation initialServerState Reachable.init).2 7⟩

end Kytan
